import Mathlib

/-!
# Verification of the project-list application

Shallow embedding of the TypeScript sources (final version in
`src/unnamed/part_002`): the `Project` data model, the `validate` helper,
the `ProjectState` singleton broadcaster with its listener notification,
the list/item views' rendering, and the form-submit path.

JavaScript runtime primitives used by the code (`String#trim`,
`Number#toString`, unary `+` on strings, `===`/`>=`/`<=` on numbers) are
modelled explicitly below.  JavaScript numbers are modelled by `JSNum`:
either `NaN` or an exact decimal value `m / 10 ^ k` (`JSDec`), which is
faithful on the decimal fragment this program manipulates; `JSDec.toRat`
interprets such a value as a rational for specification statements.
-/

namespace TSPractice

/-- Modelled from the spec: JavaScript `String#trim` on a character list —
strip leading and trailing whitespace. -/
def trimList (l : List Char) : List Char :=
  ((l.dropWhile Char.isWhitespace).reverse.dropWhile Char.isWhitespace).reverse

/-- Modelled from the spec: JavaScript `String#trim`. -/
def jsTrim (s : String) : String :=
  ⟨trimList s.data⟩

/-- The decimal digit character for `d % 10`. -/
def digitChar (d : Nat) : Char :=
  Char.ofNat (48 + d % 10)

/-- Decimal digits of a natural number, most significant first, with
structural fuel (`natDigits` supplies enough). -/
def natDigitsAux : Nat → Nat → List Char
  | 0, n => [digitChar n]
  | fuel + 1, n =>
    if n < 10 then [digitChar n]
    else natDigitsAux fuel (n / 10) ++ [digitChar (n % 10)]

/-- Decimal digits of a natural number, most significant first
(the digit list of JavaScript `Number#toString` on naturals). -/
def natDigits (n : Nat) : List Char :=
  natDigitsAux n n

/-- Modelled from the spec: JavaScript `Number#toString` on integers. -/
def intRepr : Int → String
  | Int.ofNat m => ⟨natDigits m⟩
  | Int.negSucc m => ⟨List.cons (Char.ofNat 45) (natDigits (m + 1))⟩

/-- An exact decimal value `m / 10 ^ k`: the fragment of JavaScript
numbers this program manipulates (integer literals and form input
coerced with unary `+`). -/
structure JSDec where
  m : Int
  k : Nat
deriving DecidableEq, Repr

/-- Computes `10 ^ k` as an integer. -/
def pow10 : Nat → Int
  | 0 => 1
  | k + 1 => 10 * pow10 k

/-- The rational value of a `JSDec`; used in specification statements. -/
def JSDec.toRat (d : JSDec) : ℚ :=
  (d.m : ℚ) / (10 : ℚ) ^ d.k

/-- A JavaScript number: `NaN` or an exact decimal value. -/
inductive JSNum where
  | nan
  | num (d : JSDec)
deriving DecidableEq, Repr

/-- The JavaScript number of an integer. -/
def JSNum.ofInt (n : Int) : JSNum :=
  JSNum.num ⟨n, 0⟩

/-- Strip trailing decimal zeros: `normAux k m` normalizes `m / 10 ^ k`
so that either `k = 0` or `m` is not a multiple of `10`. -/
def normAux : Nat → Int → JSDec
  | 0, m => ⟨m, 0⟩
  | k + 1, m => if m % 10 = 0 then normAux k (m / 10) else ⟨m, k + 1⟩

/-- Modelled from the spec: JavaScript `Number#toString` on an exact
decimal value — integers print without a point, other values print the
normalized digits with a decimal point. -/
def jsDecToString (d : JSDec) : String :=
  let n := normAux d.k d.m
  if n.k = 0 then intRepr n.m
  else
    let ds := natDigits n.m.natAbs
    let padded := List.replicate (n.k + 1 - ds.length) (Char.ofNat 48) ++ ds
    let l := padded.take (padded.length - n.k) ++
      List.cons (Char.ofNat 46) (padded.drop (padded.length - n.k))
    if n.m < 0 then ⟨List.cons (Char.ofNat 45) l⟩ else ⟨l⟩

/-- Modelled from the spec: JavaScript `Number#toString`. -/
def jsNumToString : JSNum → String
  | JSNum.nan => "NaN"
  | JSNum.num d => jsDecToString d

/-- JavaScript `===` restricted to numbers (`NaN === x` is false;
otherwise value equality). -/
def jsStrictEq : JSNum → JSNum → Bool
  | JSNum.nan, _ => false
  | _, JSNum.nan => false
  | JSNum.num a, JSNum.num b => decide (a.m * pow10 b.k = b.m * pow10 a.k)

/-- JavaScript `>=` between a number and an integer bound
(`NaN >= b` is false).  In the program all bounds are integer literals. -/
def jsNumGe (x : JSNum) (b : Int) : Bool :=
  match x with
  | JSNum.nan => false
  | JSNum.num d => decide (b * pow10 d.k ≤ d.m)

/-- JavaScript `<=` between a number and an integer bound
(`NaN <= b` is false). -/
def jsNumLe (x : JSNum) (b : Int) : Bool :=
  match x with
  | JSNum.nan => false
  | JSNum.num d => decide (d.m ≤ b * pow10 d.k)

/-- Numeric value of a list of decimal digit characters. -/
def digitsVal (l : List Char) : Nat :=
  l.foldl (fun a c => a * 10 + (c.toNat - 48)) 0

/-- Split a character list at the dots (JavaScript decimal-literal shape). -/
def splitDotAux : List Char → List Char → List (List Char)
  | [], cur => [cur.reverse]
  | c :: rest, cur =>
    if c = Char.ofNat 46 then cur.reverse :: splitDotAux rest []
    else splitDotAux rest (c :: cur)

/-- Parse an unsigned decimal literal (`digits`, `digits.digits`,
`digits.`, `.digits`); anything else is not a numeric literal. -/
def parseDecimalBody (body : List Char) : Option JSDec :=
  match splitDotAux body [] with
  | [i] =>
    if !i.isEmpty && i.all Char.isDigit then some ⟨digitsVal i, 0⟩ else none
  | [i, f] =>
    if !(i.isEmpty && f.isEmpty) && i.all Char.isDigit && f.all Char.isDigit then
      some ⟨digitsVal i * pow10 f.length + digitsVal f, f.length⟩
    else none
  | _ => none

/-- Modelled from the spec: JavaScript unary `+` (ToNumber) on a string,
restricted to the signed decimal fragment — trims, maps the empty string
to `0`, parses an optionally signed decimal literal, and yields `NaN`
otherwise.  (Exponent, hexadecimal and `Infinity` forms, which this
program never relies on, also map to `NaN` here.) -/
def jsToNumber (s : String) : JSNum :=
  match (jsTrim s).data with
  | [] => JSNum.num ⟨0, 0⟩
  | c :: rest =>
    if c = Char.ofNat 45 then
      match parseDecimalBody rest with
      | some d => JSNum.num ⟨-d.m, d.k⟩
      | none => JSNum.nan
    else if c = Char.ofNat 43 then
      match parseDecimalBody rest with
      | some d => JSNum.num d
      | none => JSNum.nan
    else
      match parseDecimalBody (c :: rest) with
      | some d => JSNum.num d
      | none => JSNum.nan

example : jsToNumber "" = JSNum.num ⟨0, 0⟩ := by decide
example : jsToNumber "3" = JSNum.num ⟨3, 0⟩ := by decide
example : jsToNumber "2.5" = JSNum.num ⟨25, 1⟩ := by decide
example : jsToNumber "-4" = JSNum.num ⟨-4, 0⟩ := by decide
example : jsToNumber "abc" = JSNum.nan := by decide
example : jsNumToString (JSNum.num ⟨0, 0⟩) = "0" := by decide
example : jsNumToString (JSNum.num ⟨25, 1⟩) = "2.5" := by decide
example : jsNumToString (JSNum.num ⟨-12, 0⟩) = "-12" := by decide
example : jsNumToString (JSNum.num ⟨250, 2⟩) = "2.5" := by decide
example : jsTrim "  a b  " = "a b" := by decide
example : jsStrictEq (JSNum.num ⟨25, 1⟩) (JSNum.ofInt 1) = false := by decide
example : jsNumGe (JSNum.num ⟨25, 1⟩) 1 = true := by decide
example : jsNumLe (JSNum.num ⟨25, 1⟩) 5 = true := by decide

/-! ## Project data model (`enum ProjectStatus`, `class Project`) -/

/-- Source `enum ProjectStatus` with members `Active` and `Finished`. -/
inductive ProjectStatus where
  | Active
  | Finished
deriving DecidableEq, Repr

/-- Source `class Project` with fields id, title, description, people, status. -/
structure Project where
  id : String
  title : String
  description : String
  people : JSNum
  status : ProjectStatus
deriving DecidableEq, Repr

/-! ## Validation (`interface Validatable`, `const validate`) -/

/-- The `value` field of `Validatable`: `string | number`. -/
inductive Value where
  | str (s : String)
  | num (x : JSNum)
deriving DecidableEq, Repr

/-- JavaScript `toString()` on a `string | number` value. -/
def Value.toStr : Value → String
  | Value.str s => s
  | Value.num x => jsNumToString x

/-- Source `interface Validatable`: a value and optional constraints.  Length
and numeric bounds are the integer literals the program uses. -/
structure Validatable where
  value : Value
  required : Option Bool := none
  minLength : Option Int := none
  maxLength : Option Int := none
  min : Option Int := none
  max : Option Int := none
deriving DecidableEq, Repr

/-- Source `const validate`, a function of one `Validatable` argument:
sequential `isValid = isValid && check` updates, one per constraint,
guarded exactly as in the source (`required` truthy; length bounds only
on string values; numeric bounds only on number values). -/
def validate (validatableInput : Validatable) : Bool :=
  let isValid0 : Bool := true
  let isValid1 : Bool :=
    if validatableInput.required.getD false then
      isValid0 && ((jsTrim validatableInput.value.toStr).length != 0)
    else isValid0
  let isValid2 : Bool :=
    match validatableInput.minLength, validatableInput.value with
    | some b, Value.str s => isValid1 && decide (b ≤ (s.length : Int))
    | _, _ => isValid1
  let isValid3 : Bool :=
    match validatableInput.maxLength, validatableInput.value with
    | some b, Value.str s => isValid2 && decide ((s.length : Int) ≤ b)
    | _, _ => isValid2
  let isValid4 : Bool :=
    match validatableInput.min, validatableInput.value with
    | some b, Value.num x => isValid3 && jsNumGe x b
    | _, _ => isValid3
  let isValid5 : Bool :=
    match validatableInput.max, validatableInput.value with
    | some b, Value.num x => isValid4 && jsNumLe x b
    | _, _ => isValid4
  isValid5

/-- Modelled from the spec (§4.1): the `required` rule in isolation —
the trimmed string form of the value is non-empty (skipped when not
required). -/
def requiredRule (v : Validatable) : Bool :=
  if v.required.getD false then (jsTrim v.value.toStr).length != 0 else true

/-- Modelled from the spec (§4.1): the `minLength` rule in isolation —
applies only when the value is a string (otherwise skipped). -/
def minLengthRule (v : Validatable) : Bool :=
  match v.minLength, v.value with
  | some b, Value.str s => decide (b ≤ (s.length : Int))
  | _, _ => true

/-- Modelled from the spec (§4.1): the `maxLength` rule in isolation. -/
def maxLengthRule (v : Validatable) : Bool :=
  match v.maxLength, v.value with
  | some b, Value.str s => decide ((s.length : Int) ≤ b)
  | _, _ => true

/-- Modelled from the spec (§4.1): the `min` rule in isolation —
applies only when the value is a number (otherwise skipped). -/
def minRule (v : Validatable) : Bool :=
  match v.min, v.value with
  | some b, Value.num x => jsNumGe x b
  | _, _ => true

/-- Modelled from the spec (§4.1): the `max` rule in isolation. -/
def maxRule (v : Validatable) : Bool :=
  match v.max, v.value with
  | some b, Value.num x => jsNumLe x b
  | _, _ => true

/-- Modelled from the spec (§4.1): all rules independently required to
pass, combined by logical AND. -/
def validateSpec (v : Validatable) : Bool :=
  requiredRule v && minLengthRule v && maxLengthRule v && minRule v && maxRule v

example : validate { value := Value.str "", required := some true } = false := by decide
example :
    validate { value := Value.str "abc", required := some true, minLength := some 5 }
      = false := by decide
example :
    validate { value := Value.str "abcde", required := some true, minLength := some 5 }
      = true := by decide
example :
    validate { value := Value.num (JSNum.ofInt 3), min := some 1, max := some 5 }
      = true := by decide
example :
    validate { value := Value.num (JSNum.ofInt 6), min := some 1, max := some 5 }
      = false := by decide

/-! ## State broadcaster (`class State`, `class ProjectState`)

JavaScript arrays are mutable objects, so the broadcaster is embedded
against a small heap of project arrays: a reference is an index into the
heap, the broadcaster's internal `projects` array lives behind one
reference, and each notification allocates a fresh reference for the
copy `[...this.projects]` passed to the listener.  A listener is
modelled by the transformation it applies to the array it receives (a
listener that only reads is the identity). -/

/-- A heap of project arrays; references are indices. -/
structure Heap where
  arrays : List (List Project)

/-- Read the array behind a reference. -/
def Heap.get (h : Heap) (r : Nat) : List Project :=
  h.arrays.getD r []

/-- Overwrite the array behind a reference (mutation of a JS array). -/
def Heap.set (h : Heap) (r : Nat) (a : List Project) : Heap :=
  ⟨h.arrays.set r a⟩

/-- Allocate a fresh array, returning the new heap and its reference. -/
def Heap.alloc (h : Heap) (a : List Project) : Heap × Nat :=
  (⟨h.arrays ++ [a]⟩, h.arrays.length)

/-- Source `type Listener<T> = (items: T[]) => void`, as the transformation a
listener applies to the snapshot array it receives. -/
def Listener : Type :=
  List Project → List Project

/-- One listener invocation recorded during a notification: which
listener ran (registration position), the reference of the snapshot
array it was passed, and that array's contents at call time. -/
structure NotifyEvent where
  listenerIdx : Nat
  snapshotRef : Nat
  received : List Project

/-- Source `class ProjectState extends State<Project>`: the listener list from
the `State` base class and the reference of the private `projects`
array.  (The singleton machinery is modelled separately below.) -/
structure ProjectState where
  projectsRef : Nat
  listeners : List Listener

/-- Source `addListener(listenerFn)`: push the listener onto the stored list. -/
def ProjectState.addListener (σ : ProjectState) (listenerFn : Listener) : ProjectState :=
  { σ with listeners := σ.listeners ++ [listenerFn] }

/-- The notification loop of `addProject`: for each stored listener in
order, allocate the copy `[...this.projects]` and call the listener on
it.  `i` is the registration position of the first listener in `fs`. -/
def notifyAll : List Listener → Nat → Nat → Heap → Heap × List NotifyEvent
  | [], _, _, h => (h, [])
  | listenerFn :: rest, i, ρ, h =>
    let ar := h.alloc (h.get ρ)
    let received := ar.1.get ar.2
    let h2 := ar.1.set ar.2 (listenerFn received)
    let out := notifyAll rest (i + 1) ρ h2
    (out.1, ⟨i, ar.2, received⟩ :: out.2)

/-- Source `addProject(title, description, numOfPeople)`: build the new
`Project` with a fresh id and status `Active`, push it onto the internal
array, then run the notification loop.  The pseudo-random id
`Math.random().toString()` is supplied as the `freshId` argument. -/
def ProjectState.addProject (σ : ProjectState) (h : Heap) (freshId : String)
    (title description : String) (numOfPeople : JSNum) : Heap × List NotifyEvent :=
  let newProject : Project :=
    ⟨freshId, title, description, numOfPeople, ProjectStatus.Active⟩
  let h1 := h.set σ.projectsRef (h.get σ.projectsRef ++ [newProject])
  notifyAll σ.listeners 0 σ.projectsRef h1

/-- The arguments of one `addProject` call. -/
structure AddCall where
  freshId : String
  title : String
  description : String
  numOfPeople : JSNum

/-- The project an `addProject` call stores. -/
def AddCall.toProject (c : AddCall) : Project :=
  ⟨c.freshId, c.title, c.description, c.numOfPeople, ProjectStatus.Active⟩

/-- Run a sequence of `addProject` calls. -/
def runAddProjects (σ : ProjectState) (h : Heap) : List AddCall → Heap
  | [] => h
  | c :: rest =>
    runAddProjects σ (σ.addProject h c.freshId c.title c.description c.numOfPeople).1 rest

/-- The broadcaster before any mutation: empty internal array behind
reference `0`, no listeners. -/
def initialHeap : Heap :=
  ⟨[[]]⟩

/-- The freshly constructed `ProjectState`. -/
def initialState : ProjectState :=
  ⟨0, []⟩

/-- The broadcaster states reachable through its public operations
(`addListener`, `addProject`). -/
inductive Reachable : ProjectState → Heap → Prop where
  | init : Reachable initialState initialHeap
  | addListener {σ : ProjectState} {h : Heap} (f : Listener) :
      Reachable σ h → Reachable (σ.addListener f) h
  | addProject {σ : ProjectState} {h : Heap}
      (freshId title description : String) (numOfPeople : JSNum) :
      Reachable σ h →
      Reachable σ (σ.addProject h freshId title description numOfPeople).1

/-- Source `static getInstance()`: the static `instance` field is an optional
reference; a fresh reference is supplied for the `new ProjectState()`
branch.  Returns the updated field, the returned reference, and whether
a construction happened. -/
def getInstance (inst : Option Nat) (fresh : Nat) : Option Nat × Nat × Bool :=
  match inst with
  | some i => (some i, i, false)
  | none => (some fresh, fresh, true)

/-- Run a sequence of `getInstance` accesses, recording for each the
returned reference and whether it constructed a new instance. -/
def runGetInstance : Option Nat → List Nat → List (Nat × Bool)
  | _, [] => []
  | slot, fresh :: rest =>
    let r := getInstance slot fresh
    (r.2.1, r.2.2) :: runGetInstance r.1 rest

/-! ## Item view (`class ProjectItem`) -/

/-- Source `get persons()`: singular at headcount `=== 1`, otherwise the
template string with the headcount's string form. -/
def ProjectItem.persons (project : Project) : String :=
  if jsStrictEq project.people (JSNum.ofInt 1) then "1 person"
  else jsNumToString project.people ++ " persons"

/-- The text content a `ProjectItem` writes into its rendered root:
the `h2`, `h3` and `p` elements of the `single-project` template. -/
structure RenderedItem where
  h2 : String
  h3 : String
  p : String
deriving DecidableEq, Repr

/-- Source `ProjectItem.renderContent()`: title into `h2`, pluralized
assignment string plus `" assigned"` into `h3`, description into `p`. -/
def ProjectItem.renderContent (project : Project) : RenderedItem :=
  ⟨project.title, ProjectItem.persons project ++ " assigned", project.description⟩

/-! ## List view (`class ProjectList`) -/

/-- The `type` constructor parameter of `ProjectList`:
`'active' | 'finished'`. -/
inductive ListType where
  | active
  | finished
deriving DecidableEq, Repr

/-- The filter closure registered in `ProjectList.configure`:
`'active'` keeps `Active` projects, otherwise `Finished` ones. -/
def relevantProjects (type : ListType) (projects : List Project) : List Project :=
  projects.filter fun prj =>
    if type = ListType.active then prj.status == ProjectStatus.Active
    else prj.status == ProjectStatus.Finished

/-- Source `ProjectList.renderProjects()`: set the list element's content to
empty (`listEl.innerHTML = ''`), then append one `ProjectItem` per
assigned project, in list order.  `listElContent` is the list element's
content before the redraw. -/
def ProjectList.renderProjects (listElContent : List RenderedItem)
    (assignedProjects : List Project) : List RenderedItem :=
  let listEl : List RenderedItem := []
  assignedProjects.foldl (fun acc prjItem => acc ++ [ProjectItem.renderContent prjItem]) listEl

/-- The listener `ProjectList.configure` registers: filter the snapshot
by this view's category, store it, and redraw.  Returns the list
element's content after the redraw. -/
def ProjectList.onNotification (type : ListType) (projects : List Project)
    (listElContent : List RenderedItem) : List RenderedItem :=
  ProjectList.renderProjects listElContent (relevantProjects type projects)

/-! ## Input form view (`class ProjectInput`) -/

/-- The three input elements' current `value` strings. -/
structure FormFields where
  title : String
  description : String
  people : String
deriving DecidableEq, Repr

/-- The `titleValidatable` descriptor of `gatherUserInput`. -/
def titleValidatable (enteredTitle : String) : Validatable :=
  { value := Value.str enteredTitle, required := some true }

/-- The `descriptionValidatable` descriptor of `gatherUserInput`. -/
def descriptionValidatable (enteredDescription : String) : Validatable :=
  { value := Value.str enteredDescription, required := some true, minLength := some 5 }

/-- The `peopleValidatable` descriptor of `gatherUserInput`
(value coerced with unary `+`). -/
def peopleValidatable (enteredPeople : String) : Validatable :=
  { value := Value.num (jsToNumber enteredPeople), required := some true,
    min := some 1, max := some 5 }

/-- Source `gatherUserInput()`: validate the three descriptors; on any failure
alert and return `undefined` (modelled `none`), otherwise return the
tuple with the headcount coerced to a number. -/
def gatherUserInput (f : FormFields) : Option (String × String × JSNum) :=
  if !validate (titleValidatable f.title)
      || !validate (descriptionValidatable f.description)
      || !validate (peopleValidatable f.people) then
    none
  else
    some (f.title, f.description, jsToNumber f.people)

/-- Source `clearInputs()`: reset the three fields to the empty string. -/
def clearInputs (fields : FormFields) : FormFields :=
  { fields with title := "", description := "", people := "" }

/-- Everything observable after one `submitHandler` run: the heap, the
input fields, whether the alert fired, the notification events, and the
arguments of the `addProject` calls made. -/
structure SubmitOutcome where
  heap : Heap
  fields : FormFields
  alerted : Bool
  events : List NotifyEvent
  addProjectCalls : List (String × String × JSNum)

/-- Source `submitHandler(e)`: gather the user input; if it is a tuple, call
`projectState.addProject` with it and clear the inputs, otherwise the
alert has fired inside `gatherUserInput` and nothing else happens. -/
def submitHandler (σ : ProjectState) (h : Heap) (fields : FormFields)
    (freshId : String) : SubmitOutcome :=
  match gatherUserInput fields with
  | none => ⟨h, fields, true, [], []⟩
  | some (title, desc, people) =>
    let out := σ.addProject h freshId title desc people
    ⟨out.1, clearInputs fields, false, out.2, [(title, desc, people)]⟩

/-! ## Helper lemmas: characters, digits, trimming -/

theorem dropWhile_eq_self_of {p : Char → Bool} :
    ∀ l : List Char, (∀ c ∈ l, p c = false) → l.dropWhile p = l := by
  intro l h
  cases l with
  | nil => rfl
  | cons a t =>
    rw [List.dropWhile_cons, h a (List.mem_cons_self a t)]
    simp

theorem trimList_eq_self (l : List Char)
    (h : ∀ c ∈ l, c.isWhitespace = false) : trimList l = l := by
  unfold trimList
  rw [dropWhile_eq_self_of l h]
  rw [dropWhile_eq_self_of l.reverse (fun c hc => h c (List.mem_reverse.mp hc))]
  exact List.reverse_reverse l

theorem digitChar_not_ws (d : Nat) : (digitChar d).isWhitespace = false := by
  unfold digitChar
  have h : d % 10 < 10 := Nat.mod_lt _ (by omega)
  revert h
  generalize d % 10 = r
  intro h
  interval_cases r <;> decide

theorem natDigitsAux_ne_nil : ∀ fuel n, natDigitsAux fuel n ≠ [] := by
  intro fuel
  induction fuel with
  | zero => intro n; simp [natDigitsAux]
  | succ fuel ih =>
    intro n
    rw [natDigitsAux]
    split
    · simp
    · simp

theorem natDigitsAux_not_ws :
    ∀ fuel n, ∀ c ∈ natDigitsAux fuel n, c.isWhitespace = false := by
  intro fuel
  induction fuel with
  | zero =>
    intro n c hc
    simp only [natDigitsAux, List.mem_singleton] at hc
    subst hc
    exact digitChar_not_ws n
  | succ fuel ih =>
    intro n c hc
    rw [natDigitsAux] at hc
    split at hc
    · simp only [List.mem_singleton] at hc
      subst hc
      exact digitChar_not_ws n
    · rcases List.mem_append.mp hc with h1 | h1
      · exact ih _ c h1
      · simp only [List.mem_singleton] at h1
        subst h1
        exact digitChar_not_ws _

theorem natDigits_ne_nil (n : Nat) : natDigits n ≠ [] :=
  natDigitsAux_ne_nil n n

theorem natDigits_not_ws (n : Nat) : ∀ c ∈ natDigits n, c.isWhitespace = false :=
  natDigitsAux_not_ws n n

theorem intRepr_data_ne_nil (n : Int) : (intRepr n).data ≠ [] := by
  cases n with
  | ofNat m => exact natDigits_ne_nil m
  | negSucc m => simp [intRepr]

theorem intRepr_data_not_ws (n : Int) :
    ∀ c ∈ (intRepr n).data, c.isWhitespace = false := by
  cases n with
  | ofNat m => exact natDigits_not_ws m
  | negSucc m =>
    intro c hc
    simp only [intRepr, List.mem_cons] at hc
    rcases hc with h1 | h1
    · subst h1; decide
    · exact natDigits_not_ws _ c h1

theorem jsDecToString_data_ne_nil (d : JSDec) : (jsDecToString d).data ≠ [] := by
  simp only [jsDecToString]
  split
  · exact intRepr_data_ne_nil _
  · split <;> simp

theorem jsDecToString_data_not_ws (d : JSDec) :
    ∀ c ∈ (jsDecToString d).data, c.isWhitespace = false := by
  simp only [jsDecToString]
  have hpad : ∀ c ∈ List.replicate ((normAux d.k d.m).k + 1 -
      (natDigits (normAux d.k d.m).m.natAbs).length) (Char.ofNat 48) ++
      natDigits (normAux d.k d.m).m.natAbs, c.isWhitespace = false := by
    intro c hc
    rcases List.mem_append.mp hc with h1 | h1
    · rw [List.eq_of_mem_replicate h1]; decide
    · exact natDigits_not_ws _ c h1
  split
  · exact intRepr_data_not_ws _
  · split
    · intro c hc
      simp only [List.mem_cons] at hc
      rcases hc with h1 | hc
      · subst h1; decide
      · rcases List.mem_append.mp hc with h1 | h1
        · exact hpad c (List.take_subset _ _ h1)
        · simp only [List.mem_cons] at h1
          rcases h1 with h2 | h2
          · subst h2; decide
          · exact hpad c (List.drop_subset _ _ h2)
    · intro c hc
      rcases List.mem_append.mp hc with h1 | h1
      · exact hpad c (List.take_subset _ _ h1)
      · simp only [List.mem_cons] at h1
        rcases h1 with h2 | h2
        · subst h2; decide
        · exact hpad c (List.drop_subset _ _ h2)

theorem jsNumToString_data_ne_nil (x : JSNum) : (jsNumToString x).data ≠ [] := by
  cases x with
  | nan => decide
  | num d => exact jsDecToString_data_ne_nil d

theorem jsNumToString_data_not_ws (x : JSNum) :
    ∀ c ∈ (jsNumToString x).data, c.isWhitespace = false := by
  cases x with
  | nan => decide
  | num d => exact jsDecToString_data_not_ws d

theorem jsNumToString_length_ne_zero (x : JSNum) : (jsNumToString x).length ≠ 0 := by
  show (jsNumToString x).data.length ≠ 0
  rw [ne_eq, List.length_eq_zero]
  exact jsNumToString_data_ne_nil x

theorem jsTrim_jsNumToString_length_ne_zero (x : JSNum) :
    (jsTrim (jsNumToString x)).length ≠ 0 := by
  show (trimList (jsNumToString x).data).length ≠ 0
  rw [trimList_eq_self _ (jsNumToString_data_not_ws x)]
  rw [ne_eq, List.length_eq_zero]
  exact jsNumToString_data_ne_nil x

/-! ## Helper lemmas: heap references -/

theorem getD_set_self {α : Type} :
    ∀ (l : List α) (r : Nat) (a d : α), r < l.length → (l.set r a).getD r d = a := by
  intro l
  induction l with
  | nil => intro r a d h; simp at h
  | cons x xs ih =>
    intro r a d h
    cases r with
    | zero => simp
    | succ r =>
      simp only [List.set_cons_succ, List.getD_cons_succ]
      exact ih r a d (by simpa using h)

theorem getD_set_ne {α : Type} :
    ∀ (l : List α) (r r' : Nat) (a d : α), r' ≠ r → (l.set r a).getD r' d = l.getD r' d := by
  intro l
  induction l with
  | nil => intro r r' a d _; simp
  | cons x xs ih =>
    intro r r' a d hne
    cases r with
    | zero =>
      cases r' with
      | zero => exact absurd rfl hne
      | succ r' => simp
    | succ r =>
      cases r' with
      | zero => simp
      | succ r' =>
        simp only [List.set_cons_succ, List.getD_cons_succ]
        exact ih r r' a d (fun hh => hne (by rw [hh]))

theorem getD_append_lt {α : Type} :
    ∀ (l l2 : List α) (r : Nat) (d : α), r < l.length → (l ++ l2).getD r d = l.getD r d := by
  intro l
  induction l with
  | nil => intro l2 r d h; simp at h
  | cons x xs ih =>
    intro l2 r d h
    cases r with
    | zero => simp
    | succ r =>
      simp only [List.cons_append, List.getD_cons_succ]
      exact ih l2 r d (by simpa using h)

theorem getD_append_len {α : Type} :
    ∀ (l : List α) (a d : α), (l ++ [a]).getD l.length d = a := by
  intro l
  induction l with
  | nil => intro a d; simp
  | cons x xs ih => intro a d; simpa using ih a d

theorem Heap.get_set_self (h : Heap) (r : Nat) (a : List Project)
    (hr : r < h.arrays.length) : (h.set r a).get r = a :=
  getD_set_self h.arrays r a [] hr

theorem Heap.get_set_ne (h : Heap) (r r' : Nat) (a : List Project)
    (hne : r' ≠ r) : (h.set r a).get r' = h.get r' :=
  getD_set_ne h.arrays r r' a [] hne

theorem Heap.length_set (h : Heap) (r : Nat) (a : List Project) :
    (h.set r a).arrays.length = h.arrays.length :=
  List.length_set h.arrays r a

theorem Heap.get_alloc_lt (h : Heap) (a : List Project) (r : Nat)
    (hr : r < h.arrays.length) : (h.alloc a).1.get r = h.get r :=
  getD_append_lt h.arrays [a] r [] hr

theorem Heap.get_alloc_self (h : Heap) (a : List Project) :
    (h.alloc a).1.get (h.alloc a).2 = a :=
  getD_append_len h.arrays a []

theorem Heap.length_alloc (h : Heap) (a : List Project) :
    (h.alloc a).1.arrays.length = h.arrays.length + 1 := by
  simp [Heap.alloc]

/-! ## Helper lemmas: the notification loop and `addProject` -/

theorem notifyAll_fst (fs : List Listener) :
    ∀ (i ρ : Nat) (h : Heap), ρ < h.arrays.length →
      (notifyAll fs i ρ h).1.get ρ = h.get ρ ∧
      ρ < (notifyAll fs i ρ h).1.arrays.length := by
  induction fs with
  | nil => intro i ρ h hρ; exact ⟨rfl, hρ⟩
  | cons f rest ih =>
    intro i ρ h hρ
    simp only [notifyAll]
    have hne : ρ ≠ (h.alloc (h.get ρ)).2 := by
      simp only [Heap.alloc]
      omega
    have hρ2 : ρ < ((h.alloc (h.get ρ)).1.set (h.alloc (h.get ρ)).2
        (f ((h.alloc (h.get ρ)).1.get (h.alloc (h.get ρ)).2))).arrays.length := by
      rw [Heap.length_set, Heap.length_alloc]
      omega
    have hget : ((h.alloc (h.get ρ)).1.set (h.alloc (h.get ρ)).2
        (f ((h.alloc (h.get ρ)).1.get (h.alloc (h.get ρ)).2))).get ρ = h.get ρ := by
      rw [Heap.get_set_ne _ _ _ _ hne]
      exact Heap.get_alloc_lt h (h.get ρ) ρ hρ
    have := ih (i + 1) ρ _ hρ2
    rw [hget] at this
    exact this

theorem notifyAll_events (fs : List Listener) :
    ∀ (i ρ : Nat) (h : Heap), ρ < h.arrays.length →
      ((notifyAll fs i ρ h).2.map NotifyEvent.listenerIdx = List.range' i fs.length ∧
        ∀ e ∈ (notifyAll fs i ρ h).2, e.received = h.get ρ ∧ e.snapshotRef ≠ ρ) := by
  induction fs with
  | nil => intro i ρ h hρ; exact ⟨rfl, by simp [notifyAll]⟩
  | cons f rest ih =>
    intro i ρ h hρ
    simp only [notifyAll]
    have hrec : (h.alloc (h.get ρ)).1.get (h.alloc (h.get ρ)).2 = h.get ρ :=
      Heap.get_alloc_self h (h.get ρ)
    have hne : (h.alloc (h.get ρ)).2 ≠ ρ := by
      simp only [Heap.alloc]
      omega
    have hρ2 : ρ < ((h.alloc (h.get ρ)).1.set (h.alloc (h.get ρ)).2
        (f ((h.alloc (h.get ρ)).1.get (h.alloc (h.get ρ)).2))).arrays.length := by
      rw [Heap.length_set, Heap.length_alloc]
      omega
    have hget : ((h.alloc (h.get ρ)).1.set (h.alloc (h.get ρ)).2
        (f ((h.alloc (h.get ρ)).1.get (h.alloc (h.get ρ)).2))).get ρ = h.get ρ := by
      rw [Heap.get_set_ne _ _ _ _ (fun hh => hne hh.symm)]
      exact Heap.get_alloc_lt h (h.get ρ) ρ hρ
    have hih := ih (i + 1) ρ _ hρ2
    rw [hget] at hih
    constructor
    · simp only [List.map_cons, hih.1, List.length_cons]
      rw [List.range'_succ]
    · intro e he
      simp only [List.mem_cons] at he
      rcases he with he | he
      · subst he
        exact ⟨hrec, hne⟩
      · exact hih.2 e he

theorem addProject_get (σ : ProjectState) (h : Heap) (freshId title description : String)
    (numOfPeople : JSNum) (hρ : σ.projectsRef < h.arrays.length) :
    (σ.addProject h freshId title description numOfPeople).1.get σ.projectsRef =
      h.get σ.projectsRef ++
        [⟨freshId, title, description, numOfPeople, ProjectStatus.Active⟩] := by
  simp only [ProjectState.addProject]
  have hρ1 : σ.projectsRef < (h.set σ.projectsRef (h.get σ.projectsRef ++
      [⟨freshId, title, description, numOfPeople, ProjectStatus.Active⟩])).arrays.length := by
    rw [Heap.length_set]; exact hρ
  rw [(notifyAll_fst σ.listeners 0 σ.projectsRef _ hρ1).1]
  exact Heap.get_set_self h σ.projectsRef _ hρ

theorem addProject_wf (σ : ProjectState) (h : Heap) (freshId title description : String)
    (numOfPeople : JSNum) (hρ : σ.projectsRef < h.arrays.length) :
    σ.projectsRef < (σ.addProject h freshId title description numOfPeople).1.arrays.length := by
  simp only [ProjectState.addProject]
  have hρ1 : σ.projectsRef < (h.set σ.projectsRef (h.get σ.projectsRef ++
      [⟨freshId, title, description, numOfPeople, ProjectStatus.Active⟩])).arrays.length := by
    rw [Heap.length_set]; exact hρ
  exact (notifyAll_fst σ.listeners 0 σ.projectsRef _ hρ1).2

theorem addProject_events (σ : ProjectState) (h : Heap) (freshId title description : String)
    (numOfPeople : JSNum) (hρ : σ.projectsRef < h.arrays.length) :
    (σ.addProject h freshId title description numOfPeople).2.map NotifyEvent.listenerIdx =
        List.range σ.listeners.length ∧
      ∀ e ∈ (σ.addProject h freshId title description numOfPeople).2,
        e.received = h.get σ.projectsRef ++
            [⟨freshId, title, description, numOfPeople, ProjectStatus.Active⟩] ∧
          e.snapshotRef ≠ σ.projectsRef := by
  simp only [ProjectState.addProject]
  have hρ1 : σ.projectsRef < (h.set σ.projectsRef (h.get σ.projectsRef ++
      [⟨freshId, title, description, numOfPeople, ProjectStatus.Active⟩])).arrays.length := by
    rw [Heap.length_set]; exact hρ
  have hev := notifyAll_events σ.listeners 0 σ.projectsRef _ hρ1
  rw [Heap.get_set_self h σ.projectsRef _ hρ] at hev
  refine ⟨?_, hev.2⟩
  rw [hev.1, List.range_eq_range']

/-! ## Helper lemmas: rational interpretation of JavaScript numbers -/

theorem pow10_eq (k : Nat) : pow10 k = (10 : Int) ^ k := by
  induction k with
  | zero => rfl
  | succ k ih => rw [pow10, ih, pow_succ]; ring

theorem pow10_pos (k : Nat) : (0 : Int) < pow10 k := by
  rw [pow10_eq]; positivity

theorem pow10_cast (k : Nat) : ((pow10 k : Int) : ℚ) = (10 : ℚ) ^ k := by
  rw [pow10_eq]; push_cast; ring

theorem le_toRat_iff (b : Int) (d : JSDec) :
    (b : ℚ) ≤ d.toRat ↔ b * pow10 d.k ≤ d.m := by
  rw [JSDec.toRat, le_div_iff (by positivity), ← pow10_cast]
  exact_mod_cast Iff.rfl

theorem toRat_le_iff (b : Int) (d : JSDec) :
    d.toRat ≤ (b : ℚ) ↔ d.m ≤ b * pow10 d.k := by
  rw [JSDec.toRat, div_le_iff (by positivity), ← pow10_cast]
  exact_mod_cast Iff.rfl

theorem jsNumGe_num_iff (d : JSDec) (b : Int) :
    jsNumGe (JSNum.num d) b = true ↔ (b : ℚ) ≤ d.toRat := by
  rw [jsNumGe, decide_eq_true_eq, le_toRat_iff]

theorem jsNumLe_num_iff (d : JSDec) (b : Int) :
    jsNumLe (JSNum.num d) b = true ↔ d.toRat ≤ (b : ℚ) := by
  rw [jsNumLe, decide_eq_true_eq, toRat_le_iff]

theorem toRat_eq_int_iff (b : Int) (d : JSDec) :
    d.toRat = (b : ℚ) ↔ d.m = b * pow10 d.k := by
  rw [JSDec.toRat, div_eq_iff (by positivity), ← pow10_cast]
  exact_mod_cast Iff.rfl

theorem jsStrictEq_ofInt_iff (x : JSNum) (b : Int) :
    jsStrictEq x (JSNum.ofInt b) = true ↔
      ∃ d, x = JSNum.num d ∧ d.toRat = (b : ℚ) := by
  cases x with
  | nan => simp [jsStrictEq, JSNum.ofInt]
  | num d =>
    simp only [JSNum.ofInt, jsStrictEq, decide_eq_true_eq]
    constructor
    · intro hm
      refine ⟨d, rfl, ?_⟩
      rw [toRat_eq_int_iff]
      simpa [pow10] using hm
    · rintro ⟨d2, hd2, hval⟩
      cases hd2
      rw [toRat_eq_int_iff] at hval
      simpa [pow10] using hval

/-! ## Helper lemmas: rendering and the remaining operations -/

theorem foldl_append_eq_map {α β : Type} (f : α → β) :
    ∀ (l : List α) (acc : List β),
      l.foldl (fun a x => a ++ [f x]) acc = acc ++ l.map f := by
  intro l
  induction l with
  | nil => intro acc; simp
  | cons x xs ih => intro acc; simp [ih]

theorem renderProjects_eq_map (prev : List RenderedItem) (assigned : List Project) :
    ProjectList.renderProjects prev assigned = assigned.map ProjectItem.renderContent := by
  simp only [ProjectList.renderProjects]
  rw [foldl_append_eq_map]
  simp

theorem validate_eq_validateSpec_aux (v : Validatable) : validate v = validateSpec v := by
  rcases v with ⟨val, req, minL, maxL, mi, ma⟩
  rcases req with _ | b
  · rcases val with s | x <;> rcases minL with _ | b1 <;> rcases maxL with _ | b2 <;>
      rcases mi with _ | b3 <;> rcases ma with _ | b4 <;>
      simp [validate, validateSpec, requiredRule, minLengthRule, maxLengthRule,
        minRule, maxRule, Bool.and_assoc]
  · cases b <;> rcases val with s | x <;> rcases minL with _ | b1 <;>
      rcases maxL with _ | b2 <;> rcases mi with _ | b3 <;> rcases ma with _ | b4 <;>
      simp [validate, validateSpec, requiredRule, minLengthRule, maxLengthRule,
        minRule, maxRule, Bool.and_assoc]

theorem runAddProjects_get (σ : ProjectState) :
    ∀ (calls : List AddCall) (h : Heap), σ.projectsRef < h.arrays.length →
      (runAddProjects σ h calls).get σ.projectsRef =
          h.get σ.projectsRef ++ calls.map AddCall.toProject ∧
        σ.projectsRef < (runAddProjects σ h calls).arrays.length := by
  intro calls
  induction calls with
  | nil => intro h hρ; exact ⟨by simp [runAddProjects], hρ⟩
  | cons c rest ih =>
    intro h hρ
    simp only [runAddProjects]
    have hwf := addProject_wf σ h c.freshId c.title c.description c.numOfPeople hρ
    have hget := addProject_get σ h c.freshId c.title c.description c.numOfPeople hρ
    have := ih _ hwf
    rw [hget] at this
    refine ⟨?_, this.2⟩
    rw [this.1]
    simp [AddCall.toProject]

theorem reachable_invariant {σ : ProjectState} {h : Heap} (hr : Reachable σ h) :
    σ.projectsRef < h.arrays.length ∧
      ∀ p ∈ h.get σ.projectsRef, p.status = ProjectStatus.Active := by
  induction hr with
  | init =>
    refine ⟨by simp [initialState, initialHeap], ?_⟩
    intro p hp
    simp [initialState, initialHeap, Heap.get] at hp
  | addListener f _ ih => exact ih
  | addProject freshId title description numOfPeople _ ih =>
    rename_i σ1 h1 _
    refine ⟨addProject_wf σ1 h1 freshId title description numOfPeople ih.1, ?_⟩
    intro p hp
    rw [addProject_get σ1 h1 freshId title description numOfPeople ih.1] at hp
    rcases List.mem_append.mp hp with h1 | h1
    · exact ih.2 p h1
    · simp only [List.mem_singleton] at h1
      subst h1
      rfl

theorem runGetInstance_some (i : Nat) :
    ∀ l : List Nat, runGetInstance (some i) l = l.map fun _ => (i, false) := by
  intro l
  induction l with
  | nil => rfl
  | cons f rest ih => simp [runGetInstance, getInstance, ih]

theorem peopleValidatable_bounds (s : String)
    (hv : validate (peopleValidatable s) = true) :
    ∃ d, jsToNumber s = JSNum.num d ∧ (1 : ℚ) ≤ d.toRat ∧ d.toRat ≤ (5 : ℚ) := by
  have hspec := validate_eq_validateSpec_aux (peopleValidatable s)
  rw [hspec] at hv
  simp only [validateSpec, Bool.and_eq_true] at hv
  have hmin := hv.1.2
  have hmax := hv.2
  simp only [minRule, maxRule, peopleValidatable] at hmin hmax
  cases hx : jsToNumber s with
  | nan => rw [hx] at hmin; simp [jsNumGe] at hmin
  | num d =>
    rw [hx] at hmin hmax
    refine ⟨d, rfl, ?_, ?_⟩
    · have := (jsNumGe_num_iff d 1).mp hmin
      exact_mod_cast this
    · have := (jsNumLe_num_iff d 5).mp hmax
      exact_mod_cast this

/-! ## Claim theorems -/

theorem jsNum_persons_ne_one_person (x : JSNum) :
    jsNumToString x ++ " persons" ≠ "1 person" := by
  intro hcontra
  have hlen : (jsNumToString x ++ " persons").length = ("1 person" : String).length := by
    rw [hcontra]
  rw [String.length_append] at hlen
  have h1 : (" persons" : String).length = 8 := rfl
  have h2 : ("1 person" : String).length = 8 := rfl
  have h3 := jsNumToString_length_ne_zero x
  omega

/-- C3: `validate` returns true iff every supplied constraint passes
(logical AND of the independent rules, each skipped when unset or when
the value has the wrong runtime type), and the five concrete
validations of the spec evaluate as stated. -/
theorem claim3_validate_conjunction :
    (∀ v : Validatable, validate v = validateSpec v) ∧
      validate { value := Value.str "", required := some true } = false ∧
      validate { value := Value.str "abc", required := some true, minLength := some 5 } = false ∧
      validate { value := Value.str "abcde", required := some true, minLength := some 5 } = true ∧
      validate { value := Value.num (JSNum.ofInt 3), min := some 1, max := some 5 } = true ∧
      validate { value := Value.num (JSNum.ofInt 6), min := some 1, max := some 5 } = false :=
  ⟨validate_eq_validateSpec_aux, by decide, by decide, by decide, by decide, by decide⟩

/-- C5: after a notification, a list view's content is exactly one
rendered item per project of the snapshot whose status matches the
view's category, in snapshot order, independent of the list element's
previous content; in particular the rendered titles are the matching
projects' titles in insertion order. -/
theorem claim5_list_view_rendering :
    ∀ (projects : List Project) (prev : List RenderedItem),
      ProjectList.onNotification ListType.active projects prev =
          (projects.filter fun p => p.status == ProjectStatus.Active).map
            ProjectItem.renderContent ∧
        (ProjectList.onNotification ListType.active projects prev).map RenderedItem.h2 =
          (projects.filter fun p => p.status == ProjectStatus.Active).map Project.title ∧
        ProjectList.onNotification ListType.finished projects prev =
          (projects.filter fun p => p.status == ProjectStatus.Finished).map
            ProjectItem.renderContent ∧
        (ProjectList.onNotification ListType.finished projects prev).map RenderedItem.h2 =
          (projects.filter fun p => p.status == ProjectStatus.Finished).map Project.title := by
  intro projects prev
  have hact : ProjectList.onNotification ListType.active projects prev =
      (projects.filter fun p => p.status == ProjectStatus.Active).map
        ProjectItem.renderContent := by
    rw [ProjectList.onNotification, renderProjects_eq_map]
    simp [relevantProjects]
  have hfin : ProjectList.onNotification ListType.finished projects prev =
      (projects.filter fun p => p.status == ProjectStatus.Finished).map
        ProjectItem.renderContent := by
    rw [ProjectList.onNotification, renderProjects_eq_map]
    simp [relevantProjects]
  refine ⟨hact, ?_, hfin, ?_⟩
  · rw [hact, List.map_map]
    rfl
  · rw [hfin, List.map_map]
    rfl

/-- C7: the pluralized assignment string is the singular form exactly
when the headcount equals 1, otherwise the headcount's string form
followed by the plural suffix; the rendered `h3` text appends
`" assigned"`. -/
theorem claim7_persons_pluralization :
    (∀ project : Project,
      (ProjectItem.persons project = "1 person" ↔
        ∃ d, project.people = JSNum.num d ∧ d.toRat = 1) ∧
      ((¬∃ d, project.people = JSNum.num d ∧ d.toRat = 1) →
        ProjectItem.persons project = jsNumToString project.people ++ " persons") ∧
      (ProjectItem.renderContent project).h3 = ProjectItem.persons project ++ " assigned") ∧
    ProjectItem.persons ⟨"i", "t", "d", JSNum.ofInt 1, ProjectStatus.Active⟩ = "1 person" ∧
    ProjectItem.persons ⟨"i", "t", "d", JSNum.ofInt 2, ProjectStatus.Active⟩
      = "2 persons" := by
  refine ⟨?_, by decide, by decide⟩
  intro project
  have hsem := jsStrictEq_ofInt_iff project.people 1
  rw [show ((1 : Int) : ℚ) = 1 from by norm_num] at hsem
  cases hEq : jsStrictEq project.people (JSNum.ofInt 1) with
  | true =>
    have hpers : ProjectItem.persons project = "1 person" := by
      rw [ProjectItem.persons, hEq]
      simp
    refine ⟨?_, ?_, ?_⟩
    · simp only [hpers, true_iff]
      exact hsem.mp hEq
    · intro hcontra
      exact absurd (hsem.mp hEq) hcontra
    · rw [ProjectItem.renderContent]
  | false =>
    have hpers : ProjectItem.persons project =
        jsNumToString project.people ++ " persons" := by
      rw [ProjectItem.persons, hEq]
      simp
    refine ⟨?_, fun _ => hpers, ?_⟩
    · rw [hpers]
      constructor
      · intro hcontra
        exact absurd hcontra (jsNum_persons_ne_one_person project.people)
      · intro hd
        have : jsStrictEq project.people (JSNum.ofInt 1) = true := hsem.mpr hd
        rw [hEq] at this
        exact absurd this (by simp)
    · rw [ProjectItem.renderContent]

/-- C8: `getInstance` is idempotent — the first access constructs the
single instance, every later access returns that same instance without
constructing, so any two accesses agree and no second instance is ever
created. -/
theorem claim8_singleton_getInstance :
    ∀ (fresh : Nat) (rest : List Nat),
      runGetInstance none (fresh :: rest) =
          (fresh, true) :: (rest.map fun _ => (fresh, false)) ∧
        ∀ (i f2 : Nat), getInstance (some i) f2 = (some i, i, false) := by
  intro fresh rest
  refine ⟨?_, fun i f2 => rfl⟩
  simp only [runGetInstance, getInstance]
  rw [runGetInstance_some]

/-- C10: every numeric value passes the `required` check (a number's
string form is never empty after trimming); the empty people field
coerces to the number 0, which passes `required` and is rejected only
by the `min` bound. -/
theorem claim10_numeric_required :
    (∀ x : JSNum, validate { value := Value.num x, required := some true } = true) ∧
      jsToNumber "" = JSNum.num ⟨0, 0⟩ ∧
      validate (peopleValidatable "") = false ∧
      validate { value := Value.num (jsToNumber ""), required := some true, max := some 5 } = true := by
  refine ⟨?_, by decide, by decide, by decide⟩
  intro x
  show ((jsTrim (jsNumToString x)).length != 0) = true
  simp only [bne_iff_ne, ne_eq]
  exact jsTrim_jsNumToString_length_ne_zero x

/-- C1: every sequence of `addProject` calls appends exactly one
`Active` project per call to the stored list, in call order, never
reordering, removing, or mutating previously stored projects (the
stored list is exactly the old list followed by the calls' projects). -/
theorem claim1_addProject_appends (σ : ProjectState) (h : Heap) (calls : List AddCall)
    (hwf : σ.projectsRef < h.arrays.length) :
    (runAddProjects σ h calls).get σ.projectsRef =
        h.get σ.projectsRef ++ calls.map AddCall.toProject ∧
      ((runAddProjects σ h calls).get σ.projectsRef).length =
        (h.get σ.projectsRef).length + calls.length ∧
      ∀ c ∈ calls, c.toProject.status = ProjectStatus.Active := by
  have hrun := (runAddProjects_get σ calls h hwf).1
  refine ⟨hrun, ?_, fun c _ => rfl⟩
  rw [hrun]
  simp

theorem claim1_witness :
    initialState.projectsRef < initialHeap.arrays.length ∧
      ((runAddProjects initialState initialHeap
          [⟨"a", "t1", "d1", JSNum.ofInt 3⟩, ⟨"b", "t2", "d2", JSNum.ofInt 2⟩]).get
            initialState.projectsRef =
          initialHeap.get initialState.projectsRef ++
            List.map AddCall.toProject
              [⟨"a", "t1", "d1", JSNum.ofInt 3⟩, ⟨"b", "t2", "d2", JSNum.ofInt 2⟩] ∧
        ((runAddProjects initialState initialHeap
            [⟨"a", "t1", "d1", JSNum.ofInt 3⟩, ⟨"b", "t2", "d2", JSNum.ofInt 2⟩]).get
              initialState.projectsRef).length =
          (initialHeap.get initialState.projectsRef).length + 2 ∧
        ∀ c ∈ ([⟨"a", "t1", "d1", JSNum.ofInt 3⟩, ⟨"b", "t2", "d2", JSNum.ofInt 2⟩] :
            List AddCall), c.toProject.status = ProjectStatus.Active) :=
  ⟨by decide, claim1_addProject_appends initialState initialHeap
    [⟨"a", "t1", "d1", JSNum.ofInt 3⟩, ⟨"b", "t2", "d2", JSNum.ofInt 2⟩] (by decide)⟩

/-- C4: every `addProject` call invokes all registered listeners, in
registration order; each listener receives a snapshot array that holds
exactly the broadcaster's new internal list but lives behind a
different reference than the internal array; and — for arbitrary
listener mutations of their received arrays — the internal list after
the call is still exactly the old list plus the new project, so no
listener mutation leaks into the broadcaster or into a later
listener's snapshot. -/
theorem claim4_listener_snapshots (σ : ProjectState) (h : Heap)
    (freshId title description : String) (numOfPeople : JSNum)
    (hwf : σ.projectsRef < h.arrays.length) :
    (σ.addProject h freshId title description numOfPeople).2.map NotifyEvent.listenerIdx =
        List.range σ.listeners.length ∧
      (∀ e ∈ (σ.addProject h freshId title description numOfPeople).2,
        e.received = h.get σ.projectsRef ++
            [⟨freshId, title, description, numOfPeople, ProjectStatus.Active⟩] ∧
          e.snapshotRef ≠ σ.projectsRef) ∧
      (σ.addProject h freshId title description numOfPeople).1.get σ.projectsRef =
        h.get σ.projectsRef ++
          [⟨freshId, title, description, numOfPeople, ProjectStatus.Active⟩] := by
  have hev := addProject_events σ h freshId title description numOfPeople hwf
  exact ⟨hev.1, hev.2, addProject_get σ h freshId title description numOfPeople hwf⟩

theorem claim4_witness :
    (ProjectState.mk 0 [fun _ => []]).projectsRef < (Heap.mk [[]]).arrays.length ∧
      (((ProjectState.mk 0 [fun _ => []]).addProject (Heap.mk [[]]) "a" "t" "d"
            (JSNum.ofInt 3)).2.map NotifyEvent.listenerIdx =
          List.range (ProjectState.mk 0 [fun _ => []]).listeners.length ∧
        (∀ e ∈ ((ProjectState.mk 0 [fun _ => []]).addProject (Heap.mk [[]]) "a" "t" "d"
            (JSNum.ofInt 3)).2,
          e.received = (Heap.mk [[]]).get (ProjectState.mk 0 [fun _ => []]).projectsRef ++
              [⟨"a", "t", "d", JSNum.ofInt 3, ProjectStatus.Active⟩] ∧
            e.snapshotRef ≠ (ProjectState.mk 0 [fun _ => []]).projectsRef) ∧
        ((ProjectState.mk 0 [fun _ => []]).addProject (Heap.mk [[]]) "a" "t" "d"
            (JSNum.ofInt 3)).1.get (ProjectState.mk 0 [fun _ => []]).projectsRef =
          (Heap.mk [[]]).get (ProjectState.mk 0 [fun _ => []]).projectsRef ++
            [⟨"a", "t", "d", JSNum.ofInt 3, ProjectStatus.Active⟩]) :=
  ⟨Nat.zero_lt_one, claim4_listener_snapshots (ProjectState.mk 0 [fun _ => []])
    (Heap.mk [[]]) "a" "t" "d" (JSNum.ofInt 3) Nat.zero_lt_one⟩

/-- C2: on submit, if any of the three validation rule sets fails the
handler alerts and aborts with no state change (heap and fields
untouched, no `addProject` call); otherwise the headcount is coerced to
a number, `addProject` is called exactly once with the three values,
the new project is appended, and all three fields are cleared. -/
theorem claim2_submit_handler (σ : ProjectState) (h : Heap) (fields : FormFields)
    (freshId : String) (hwf : σ.projectsRef < h.arrays.length) :
    ((validate (titleValidatable fields.title) &&
        validate (descriptionValidatable fields.description) &&
        validate (peopleValidatable fields.people)) = false →
      (submitHandler σ h fields freshId).alerted = true ∧
        (submitHandler σ h fields freshId).heap = h ∧
        (submitHandler σ h fields freshId).fields = fields ∧
        (submitHandler σ h fields freshId).addProjectCalls = []) ∧
    ((validate (titleValidatable fields.title) &&
        validate (descriptionValidatable fields.description) &&
        validate (peopleValidatable fields.people)) = true →
      (submitHandler σ h fields freshId).alerted = false ∧
        (submitHandler σ h fields freshId).addProjectCalls =
          [(fields.title, fields.description, jsToNumber fields.people)] ∧
        (submitHandler σ h fields freshId).fields = FormFields.mk "" "" "" ∧
        (submitHandler σ h fields freshId).heap.get σ.projectsRef =
          h.get σ.projectsRef ++
            [⟨freshId, fields.title, fields.description, jsToNumber fields.people,
              ProjectStatus.Active⟩]) := by
  cases ha : validate (titleValidatable fields.title) with
  | false =>
    refine ⟨fun _ => ?_, fun hcontra => ?_⟩
    · simp [submitHandler, gatherUserInput, ha, clearInputs]
    · rw [Bool.and_eq_true, Bool.and_eq_true] at hcontra
      exact absurd hcontra.1.1 (by decide)
  | true =>
    cases hb : validate (descriptionValidatable fields.description) with
    | false =>
      refine ⟨fun _ => ?_, fun hcontra => ?_⟩
      · simp [submitHandler, gatherUserInput, ha, hb, clearInputs]
      · rw [Bool.and_eq_true, Bool.and_eq_true] at hcontra
        exact absurd hcontra.1.2 (by decide)
    | true =>
      cases hc : validate (peopleValidatable fields.people) with
      | false =>
        refine ⟨fun _ => ?_, fun hcontra => ?_⟩
        · simp [submitHandler, gatherUserInput, ha, hb, hc, clearInputs]
        · rw [Bool.and_eq_true] at hcontra
          exact absurd hcontra.2 (by decide)
      | true =>
        refine ⟨fun hcontra => by simp [ha, hb, hc] at hcontra, fun _ => ?_⟩
        have hout : submitHandler σ h fields freshId = ⟨(σ.addProject h freshId
            fields.title fields.description (jsToNumber fields.people)).1,
            clearInputs fields, false,
            (σ.addProject h freshId fields.title fields.description
              (jsToNumber fields.people)).2,
            [(fields.title, fields.description, jsToNumber fields.people)]⟩ := by
          simp [submitHandler, gatherUserInput, ha, hb, hc]
        rw [hout]
        refine ⟨rfl, rfl, rfl, ?_⟩
        exact addProject_get σ h freshId fields.title fields.description
          (jsToNumber fields.people) hwf

theorem claim2_witness :
    initialState.projectsRef < initialHeap.arrays.length ∧
      ((validate (titleValidatable (FormFields.mk "Build API" "Backend work" "3").title) &&
          validate (descriptionValidatable
            (FormFields.mk "Build API" "Backend work" "3").description) &&
          validate (peopleValidatable
            (FormFields.mk "Build API" "Backend work" "3").people)) = true →
        (submitHandler initialState initialHeap (FormFields.mk "Build API" "Backend work" "3")
            "id0").alerted = false ∧
          (submitHandler initialState initialHeap
              (FormFields.mk "Build API" "Backend work" "3") "id0").addProjectCalls =
            [((FormFields.mk "Build API" "Backend work" "3").title,
              (FormFields.mk "Build API" "Backend work" "3").description,
              jsToNumber (FormFields.mk "Build API" "Backend work" "3").people)] ∧
          (submitHandler initialState initialHeap
              (FormFields.mk "Build API" "Backend work" "3") "id0").fields =
            FormFields.mk "" "" "" ∧
          (submitHandler initialState initialHeap
              (FormFields.mk "Build API" "Backend work" "3") "id0").heap.get
              initialState.projectsRef =
            initialHeap.get initialState.projectsRef ++
              [⟨"id0", (FormFields.mk "Build API" "Backend work" "3").title,
                (FormFields.mk "Build API" "Backend work" "3").description,
                jsToNumber (FormFields.mk "Build API" "Backend work" "3").people,
                ProjectStatus.Active⟩]) :=
  ⟨by decide, (claim2_submit_handler initialState initialHeap
    (FormFields.mk "Build API" "Backend work" "3") "id0" (by decide)).2⟩

/-- C9: in every reachable broadcaster state all stored projects are
`Active` — `addProject` only creates `Active` projects and no operation
changes a status — so the finished view's filtered project set is
empty. -/
theorem claim9_no_finished_reachable {σ : ProjectState} {h : Heap}
    (hr : Reachable σ h) :
    (∀ p ∈ h.get σ.projectsRef, p.status = ProjectStatus.Active) ∧
      relevantProjects ListType.finished (h.get σ.projectsRef) = [] := by
  have hinv := reachable_invariant hr
  refine ⟨hinv.2, ?_⟩
  rw [relevantProjects, List.filter_eq_nil]
  intro p hp
  rw [hinv.2 p hp]
  decide

theorem claim9_witness :
    Reachable initialState
        (initialState.addProject initialHeap "a" "t" "d" (JSNum.ofInt 3)).1 ∧
      ((∀ p ∈ (initialState.addProject initialHeap "a" "t" "d" (JSNum.ofInt 3)).1.get
          initialState.projectsRef, p.status = ProjectStatus.Active) ∧
        relevantProjects ListType.finished
          ((initialState.addProject initialHeap "a" "t" "d" (JSNum.ofInt 3)).1.get
            initialState.projectsRef) = []) :=
  ⟨Reachable.addProject "a" "t" "d" (JSNum.ofInt 3) Reachable.init,
    claim9_no_finished_reachable
      (Reachable.addProject "a" "t" "d" (JSNum.ofInt 3) Reachable.init)⟩

/-- C6 (counterexample): the form submit path accepts the people input
string "2.5" — the validation rules pass, `addProject` is called, and
the stored project's headcount is the number 2.5, which lies between 1
and 5 but is not an integer.  This refutes the claim that the rule set
admits only integers. -/
theorem claim6_counterexample :
    (submitHandler initialState initialHeap
        (FormFields.mk "Build API" "Backend work" "2.5") "id0").addProjectCalls =
      [("Build API", "Backend work", JSNum.num ⟨25, 1⟩)] ∧
    (submitHandler initialState initialHeap
        (FormFields.mk "Build API" "Backend work" "2.5") "id0").heap.get
        initialState.projectsRef =
      [⟨"id0", "Build API", "Backend work", JSNum.num ⟨25, 1⟩, ProjectStatus.Active⟩] ∧
    JSDec.toRat ⟨25, 1⟩ = 5 / 2 ∧
    ¬∃ n : Int, JSDec.toRat ⟨25, 1⟩ = (n : ℚ) := by
  refine ⟨by decide, by decide, by norm_num [JSDec.toRat], ?_⟩
  rintro ⟨n, hn⟩
  rw [toRat_eq_int_iff] at hn
  simp only [pow10] at hn
  omega

/-- C6 (amended): every project created through the form submit path
has a headcount that is a number between 1 and 5 inclusive — the
bounds are enforced by the `min`/`max` rules, but integrality is not. -/
theorem claim6_headcount_bounds (σ : ProjectState) (h : Heap) (fields : FormFields)
    (freshId : String) (hwf : σ.projectsRef < h.arrays.length)
    (hcalls : (submitHandler σ h fields freshId).addProjectCalls ≠ []) :
    ∃ d, jsToNumber fields.people = JSNum.num d ∧
      (1 : ℚ) ≤ d.toRat ∧ d.toRat ≤ (5 : ℚ) ∧
      (submitHandler σ h fields freshId).heap.get σ.projectsRef =
        h.get σ.projectsRef ++
          [⟨freshId, fields.title, fields.description, JSNum.num d,
            ProjectStatus.Active⟩] := by
  cases ha : validate (titleValidatable fields.title) with
  | false => rw [submitHandler] at hcalls; simp [gatherUserInput, ha] at hcalls
  | true =>
  cases hb : validate (descriptionValidatable fields.description) with
  | false => rw [submitHandler] at hcalls; simp [gatherUserInput, ha, hb] at hcalls
  | true =>
  cases hc : validate (peopleValidatable fields.people) with
  | false => rw [submitHandler] at hcalls; simp [gatherUserInput, ha, hb, hc] at hcalls
  | true =>
    obtain ⟨d, hd, h1, h5⟩ := peopleValidatable_bounds fields.people hc
    refine ⟨d, hd, h1, h5, ?_⟩
    have hout : (submitHandler σ h fields freshId).heap = (σ.addProject h freshId
        fields.title fields.description (jsToNumber fields.people)).1 := by
      simp [submitHandler, gatherUserInput, ha, hb, hc]
    rw [hout, ← hd]
    exact addProject_get σ h freshId fields.title fields.description
      (jsToNumber fields.people) hwf

theorem claim6_witness :
    initialState.projectsRef < initialHeap.arrays.length ∧
      (submitHandler initialState initialHeap (FormFields.mk "Build API" "Backend work" "3")
          "id0").addProjectCalls ≠ [] ∧
      ∃ d, jsToNumber (FormFields.mk "Build API" "Backend work" "3").people = JSNum.num d ∧
        (1 : ℚ) ≤ d.toRat ∧ d.toRat ≤ (5 : ℚ) ∧
        (submitHandler initialState initialHeap
            (FormFields.mk "Build API" "Backend work" "3") "id0").heap.get
            initialState.projectsRef =
          initialHeap.get initialState.projectsRef ++
            [⟨"id0", (FormFields.mk "Build API" "Backend work" "3").title,
              (FormFields.mk "Build API" "Backend work" "3").description, JSNum.num d,
              ProjectStatus.Active⟩] :=
  ⟨by decide, by decide, claim6_headcount_bounds initialState initialHeap
    (FormFields.mk "Build API" "Backend work" "3") "id0" (by decide) (by decide)⟩

end TSPractice
